import Mathlib

/-!
Verification development for the amigo-typescript-sdk HTTP resilience core.

Shallow embedding of the SDK's core modules:
* `Retry`  — src/src/core/retry.ts (the explicit retry loop with
  `abortableSleep`, `parseRetryAfterMs`, `computeBackoffWithJitterMs`,
  `retryingFetch`);
* `Errors` — src/src/core/errors.ts (`createApiError`);
* `Utils`  — src/src/core/utils.ts (`extractData`, `parseNdjsonStream`,
  `parseResponseBody`);
* `Client` — src/src/core/openapi-client.ts (its local `parseResponseBody`);
* `Auth`   — src/src/core/auth.ts (`ensureValidToken`, middleware hooks) as a
  small-step event-loop semantics over explicit shared state.

Host-language primitives (JS `Number`, `Date` parsing, `JSON.parse`,
`Math.random`, the wall clock and the abort signal) are modelled either by
simplified executable definitions or by explicit function parameters, as noted
at each definition.  JS numbers are modelled as rationals: every quantity the
embedded code computes (millisecond delays, clamps, doublings) is exact in `ℚ`.
-/

/-- The `parseType` field of the SDK's `ParseError` class
(src/src/core/errors.ts): `'json' | 'response' | 'other'`. -/
inductive ParseStage
  | json
  | response
  | other
deriving DecidableEq, Repr

/-- Errors thrown by the embedded helpers; only `ParseError` is needed by the
claims about `extractData` and the body parsers. -/
inductive SdkThrown
  | parseError (message : String) (stage : ParseStage)
deriving DecidableEq, Repr

/-- ASCII whitespace recognised by JS `String.prototype.trim` (the Unicode
space characters JS also trims never occur in the inputs the SDK handles). -/
def isJsSpace (c : Char) : Bool :=
  c = ' ' || c = '\t' || c = '\n' || c = '\r' || c = '\x0b' || c = '\x0c'

/-- JS `trim` on a character list: drop whitespace from both ends. -/
def trimChars (cs : List Char) : List Char :=
  ((cs.dropWhile isJsSpace).reverse.dropWhile isJsSpace).reverse

def isDigitChar (c : Char) : Bool := '0' ≤ c && c ≤ '9'

def digitsToNat (cs : List Char) : Nat :=
  cs.foldl (fun a c => 10 * a + (c.toNat - '0'.toNat)) 0

/-- Split a character list at the first `.`; returns the part before it and,
when a dot exists, the part after it. -/
def splitDot : List Char → List Char × Option (List Char)
  | [] => ([], none)
  | c :: cs =>
    if c = '.' then ([], some cs)
    else
      let p := splitDot cs
      (c :: p.1, p.2)

/-- Unsigned decimal numeral: digits, optionally with one dot, at least one
digit overall.  Mirrors the decimal grammar accepted by JS `Number`. -/
def parseUnsignedDec (cs : List Char) : Option ℚ :=
  let p := splitDot cs
  match p.2 with
  | none =>
    if cs ≠ [] && cs.all isDigitChar then some (digitsToNat cs) else none
  | some fp =>
    if (p.1 ≠ [] || fp ≠ []) && p.1.all isDigitChar && fp.all isDigitChar then
      some ((digitsToNat p.1 : ℚ) + (digitsToNat fp : ℚ) / (10 : ℚ) ^ fp.length)
    else none

/-- Modelled from the host: JS `Number(string)` conversion, restricted to the
decimal numerals relevant to `Retry-After` values: trims whitespace, the empty
string is `0`, an optional sign precedes integer/fractional digits.  `none`
stands for a non-finite result (`NaN`); exponent, hex, binary and `Infinity`
syntaxes (never produced as `Retry-After` values) are mapped to `none` as well,
which the caller treats exactly like `NaN` via `Number.isFinite`. -/
def jsNumber (s : String) : Option ℚ :=
  match trimChars s.data with
  | [] => some 0
  | '+' :: rest => parseUnsignedDec rest
  | '-' :: rest => (parseUnsignedDec rest).map Neg.neg
  | cs => parseUnsignedDec cs

/-- JS `String.prototype.toUpperCase` on one ASCII character. -/
def jsToUpperChar (c : Char) : Char :=
  if 'a' ≤ c && c ≤ 'z' then Char.ofNat (c.toNat - 32) else c

/-- JS `String.prototype.toUpperCase` (ASCII range, which covers HTTP method
names). -/
def jsToUpper (s : String) : String := ⟨s.data.map jsToUpperChar⟩

namespace Retry

/-- The fields of a platform `Response` that `retryingFetch` reads: the status
and the `Retry-After` header (`headers.get` returns `null` or the value). -/
structure Response where
  status : Nat
  retryAfter : Option String
deriving DecidableEq, Repr

/-- Platform `Response.ok`: status in the 2xx range. -/
def Response.ok (r : Response) : Bool := 200 ≤ r.status && r.status < 300

/-- A JS exception as far as the retry loop can distinguish them:
`isAbortError` only inspects the `name` property. -/
inductive JsError
  | abortError
  | transportError (msg : String)
  | genericError (msg : String)
deriving DecidableEq, Repr

/-- `isAbortError` from src/src/core/retry.ts: the error's name is
`'AbortError'`. -/
def isAbortError : JsError → Bool
  | .abortError => true
  | _ => false

/-- `isTransportRejection` from src/src/core/retry.ts: a non-null error that is
not an abort. -/
def isTransportRejection : Option JsError → Bool
  | none => false
  | some e => !(isAbortError e)

/-- `RetryOptions` from src/src/core/retry.ts (all fields optional). -/
structure RetryOptions where
  maxAttempts : Option Nat := none
  backoffBaseMs : Option ℚ := none
  maxDelayMs : Option ℚ := none
  retryOnStatus : Option (List Nat) := none
  retryOnMethods : Option (List String) := none

def DEFAULT_RETRYABLE_STATUS : List Nat := [408, 429, 500, 502, 503, 504]

def DEFAULT_RETRYABLE_METHODS : List String := ["GET"]

/-- `Required<RetryOptions>` after `resolveRetryOptions`. -/
structure ResolvedRetryOptions where
  maxAttempts : Nat
  backoffBaseMs : ℚ
  maxDelayMs : ℚ
  retryOnStatus : List Nat
  retryOnMethods : List String

/-- `resolveRetryOptions` from src/src/core/retry.ts. -/
def resolveRetryOptions (o : RetryOptions) : ResolvedRetryOptions where
  maxAttempts := o.maxAttempts.getD 3
  backoffBaseMs := o.backoffBaseMs.getD 250
  maxDelayMs := o.maxDelayMs.getD 30000
  retryOnStatus := o.retryOnStatus.getD DEFAULT_RETRYABLE_STATUS
  retryOnMethods := o.retryOnMethods.getD DEFAULT_RETRYABLE_METHODS

/-- `clamp` from src/src/core/retry.ts: `Math.max(min, Math.min(max, value))`. -/
def clamp (value mn mx : ℚ) : ℚ := max mn (min mx value)

/-- `parseRetryAfterMs` from src/src/core/retry.ts.  `parseDate` models
`new Date(s).getTime()` (`none` for an invalid date, whose `getTime` is `NaN`)
and `now` models `Date.now()`. -/
def parseRetryAfterMs (parseDate : String → Option ℚ) (now : ℚ) :
    Option String → ℚ → Option ℚ
  | none, _ => none
  | some hv, maxDelayMs =>
    if hv = "" then none
    else
      match jsNumber hv with
      | some seconds => some (clamp (max 0 (seconds * 1000)) 0 maxDelayMs)
      | none =>
        match parseDate hv with
        | some dateMs => some (clamp (max 0 (dateMs - now)) 0 maxDelayMs)
        | none => none

/-- `computeBackoffWithJitterMs` from src/src/core/retry.ts; `rand` models the
`Math.random()` draw of the call made at zero-based attempt index `i`. -/
def computeBackoffWithJitterMs (rand : Nat → ℚ) (i : Nat) (baseMs capMs : ℚ) : ℚ :=
  rand i * min capMs (baseMs * 2 ^ i)

/-- `abortableSleep` from src/src/core/retry.ts, as its observable outcome:
`none` when the sleep completes, `some abortError` when it rejects.  A
non-positive duration returns before the signal is even consulted; otherwise
the promise rejects if the signal is already aborted on entry or fires during
the wait. -/
def abortableSleep (ms : ℚ) (alreadyAborted firesDuring : Bool) : Option JsError :=
  if ms ≤ 0 then none
  else if alreadyAborted then some .abortError
  else if firesDuring then some .abortError
  else none

/-- Deterministic environment of one `retryingFetch` call: what the underlying
fetch, the clock, the random source, `Date` parsing and the abort signal do at
each attempt (attempts are numbered from 1 as in the source loop). -/
structure CallEnv where
  attemptResult : Nat → Except JsError Response
  rand : Nat → ℚ
  parseDate : String → Option ℚ
  nowAt : Nat → ℚ
  sigAtCheck : Nat → Bool
  sigDuringSleep : Nat → Bool

/-- Outcome of a whole `retryingFetch` call: the returned response (ok or not)
or the thrown error. -/
inductive CallResult
  | returned (r : Response)
  | thrown (e : JsError)
deriving DecidableEq, Repr

/-- Observable trace of a call: its result, how many underlying sends ran, how
many between-attempt sleeps completed, and the delay of each completed sleep. -/
structure RunTrace where
  result : CallResult
  sends : Nat
  sleeps : Nat
  delays : List ℚ
deriving DecidableEq, Repr

/-- The `shouldRetry`/`delayMs` computation of one loop iteration of
`retryingFetch` (src/src/core/retry.ts): transport rejections retry only for
default-retryable methods with jittered backoff; a POST response retries only
on 429 with a parseable `Retry-After`; other methods retry on configured
statuses with the `Retry-After` hint taking precedence over backoff. -/
def retryDecision (o : ResolvedRetryOptions) (method : String) (env : CallEnv)
    (isMethodRetryableByDefault : Bool) (attempt : Nat)
    (error : Option JsError) (response : Option Response) : Bool × Option ℚ :=
  if isTransportRejection error then
    if isMethodRetryableByDefault then
      (true, some (computeBackoffWithJitterMs env.rand (attempt - 1)
        o.backoffBaseMs o.maxDelayMs))
    else (false, none)
  else
    match response with
    | none => (false, none)
    | some r =>
      if method = "POST" then
        if r.status = 429 then
          match parseRetryAfterMs env.parseDate (env.nowAt attempt) r.retryAfter
              o.maxDelayMs with
          | some d => (true, some d)
          | none => (false, none)
        else (false, none)
      else if isMethodRetryableByDefault && o.retryOnStatus.contains r.status then
        (true, some ((parseRetryAfterMs env.parseDate (env.nowAt attempt)
            r.retryAfter o.maxDelayMs).getD
          (computeBackoffWithJitterMs env.rand (attempt - 1)
            o.backoffBaseMs o.maxDelayMs)))
      else (false, none)

/-- The `let response/let error` pair the loop's `try/catch` around the
underlying send produces: a resolved response leaves `error` null, a thrown
error leaves `response` null. -/
def outcomePair : Except JsError Response → Option JsError × Option Response
  | .ok r => (none, some r)
  | .error e => (some e, none)

/-- `if (error) throw error; return response` — the loop's way of surfacing
the last attempt's outcome. -/
def lastOutcome (error : Option JsError) (response : Option Response) : CallResult :=
  match error with
  | some e => .thrown e
  | none =>
    match response with
    | some r => .returned r
    | none => .thrown (.genericError "unreachable: no error and no response")

/-- Result of one loop iteration: finish the call with a trace, or complete the
sleep with the given delay and continue with the next attempt. -/
inductive IterOut
  | finish (t : RunTrace)
  | next (delay : ℚ)
deriving DecidableEq, Repr

/-- The tail of one loop iteration after the underlying send settled
(src/src/core/retry.ts lines 254-297): decide retry eligibility, stop when not
eligible or attempts are exhausted or the signal is already aborted (surfacing
the last outcome), otherwise run `abortableSleep`. -/
def iterAfterSend (o : ResolvedRetryOptions) (method : String) (env : CallEnv)
    (isMethodRetryableByDefault : Bool) (maxAttempts attempt : Nat)
    (error : Option JsError) (response : Option Response) : IterOut :=
  if !(retryDecision o method env isMethodRetryableByDefault attempt error response).1
      || !(decide (attempt < maxAttempts)) then
    .finish ⟨lastOutcome error response, 1, 0, []⟩
  else if env.sigAtCheck attempt then
    .finish ⟨lastOutcome error response, 1, 0, []⟩
  else
    match abortableSleep
        ((retryDecision o method env isMethodRetryableByDefault attempt error
            response).2.getD 0)
        false (env.sigDuringSleep attempt) with
    | some e => .finish ⟨.thrown e, 1, 0, []⟩
    | none =>
      .next ((retryDecision o method env isMethodRetryableByDefault attempt error
        response).2.getD 0)

/-- One full iteration of the retry loop: run the underlying send (its result
given by the environment), return immediately on a 2xx response, otherwise run
`iterAfterSend`. -/
def runIteration (o : ResolvedRetryOptions) (method : String) (env : CallEnv)
    (isMethodRetryableByDefault : Bool) (maxAttempts attempt : Nat) : IterOut :=
  match env.attemptResult attempt with
  | .ok r =>
    if r.ok then .finish ⟨.returned r, 1, 0, []⟩
    else iterAfterSend o method env isMethodRetryableByDefault maxAttempts attempt
      none (some r)
  | .error e =>
    iterAfterSend o method env isMethodRetryableByDefault maxAttempts attempt
      (some e) none

/-- The `for` loop of `retryingFetch`; the fuel counts the iterations the
`for` bound still allows, so exhausting it reproduces the source's trailing
`throw new Error('Retry loop exited unexpectedly')`. -/
def retryLoop (o : ResolvedRetryOptions) (method : String) (env : CallEnv)
    (isMethodRetryableByDefault : Bool) (maxAttempts : Nat) :
    Nat → Nat → RunTrace
  | _, 0 => ⟨.thrown (.genericError "Retry loop exited unexpectedly"), 0, 0, []⟩
  | attempt, fuel + 1 =>
    match runIteration o method env isMethodRetryableByDefault maxAttempts attempt with
    | .finish t => t
    | .next d =>
      let t := retryLoop o method env isMethodRetryableByDefault maxAttempts
        (attempt + 1) fuel
      ⟨t.result, t.sends + 1, t.sleeps + 1, d :: t.delays⟩

/-- `retryingFetch` from src/src/core/retry.ts (`createRetryingFetch`'s inner
function) for a single call: resolve options, uppercase the method, compute
default retryability, floor the attempt budget at 1 and run the loop from
attempt 1. -/
def retryingFetch (opts : RetryOptions) (method : String) (env : CallEnv) : RunTrace :=
  let o := resolveRetryOptions opts
  let m := jsToUpper method
  let irm := o.retryOnMethods.contains m
  let maxA := max 1 o.maxAttempts
  retryLoop o m env irm maxA 1 maxA

end Retry

namespace Errors

/-- The error classes of src/src/core/errors.ts that `createApiError` can
return, as a closed kind discriminant (`apiError` is the generic base class). -/
inductive ApiErrorKind
  | badRequestError
  | authenticationError
  | authorizationError
  | notFoundError
  | conflictError
  | rateLimitError
  | internalServerError
  | serviceUnavailableError
  | apiError
deriving DecidableEq, Repr

/-- The fields of the platform `Response` that `createApiError` reads. -/
structure JsResponseMeta where
  status : Nat
  statusText : String
deriving DecidableEq, Repr

/-- The observable content of the error instance `createApiError` builds:
its class (kind), message, `statusCode` field, and the response body carried
in its context.  The body type is left abstract; the `parseValidationErrors`
extraction of `BadRequestError.errors` is not modelled (no claim depends on
it). -/
structure ApiErrorVal (β : Type) where
  kind : ApiErrorKind
  message : String
  statusCode : Nat
  body : Option β
deriving DecidableEq, Repr

/-- `createApiError` from src/src/core/errors.ts: the `switch` on
`response.status`; each branch's `statusCode` comes from the class it
constructs (`BadRequestError` fixes 400, `AuthenticationError` 401,
`AuthorizationError` 403, and so on), and the default branch builds the
generic `ApiError` carrying `response.status` itself. -/
def createApiError {β : Type} (r : JsResponseMeta) (body : Option β) : ApiErrorVal β :=
  if r.status = 400 then
    ⟨.badRequestError, "Bad request", 400, body⟩
  else if r.status = 401 then
    ⟨.authenticationError, "Authentication failed", 401, body⟩
  else if r.status = 403 then
    ⟨.authorizationError, "Access forbidden", 403, body⟩
  else if r.status = 404 then
    ⟨.notFoundError, "Resource not found", 404, body⟩
  else if r.status = 409 then
    ⟨.conflictError, "Resource conflict", 409, body⟩
  else if r.status = 429 then
    ⟨.rateLimitError,
      "Rate limit exceeded. Please reduce request frequency and try again later.",
      429, body⟩
  else if r.status = 500 then
    ⟨.internalServerError, "Internal server error", 500, body⟩
  else if r.status = 503 then
    ⟨.serviceUnavailableError,
      "The service is temporarily unavailable. Please try again later.",
      503, body⟩
  else
    ⟨.apiError, "HTTP " ++ toString r.status ++ ": " ++ r.statusText,
      r.status, body⟩

end Errors

namespace Utils

/-- `extractData` from src/src/core/utils.ts: the openapi-fetch result's
`data` field modelled as `Option` (`none` covers both `undefined` and `null`,
the two cases the source's `data === undefined || data === null` check
rejects).  On `none` it throws `ParseError(..., 'response')`; otherwise it
returns the payload. -/
def extractData {J : Type} (data : Option J) : Except SdkThrown J :=
  match data with
  | none =>
    .error (.parseError ("Expected response data to be present for successful request")
      .response)
  | some d => .ok d

/-- What `response.text()` can do for the body parsers: resolve with the full
text, or reject. -/
inductive BodyRead
  | text (s : String)
  | readFails
deriving DecidableEq, Repr

/-- The value `parseResponseBody` produces: decoded JSON, the raw text, or
absent (`undefined`). -/
inductive ParsedBody (J : Type)
  | json (v : J)
  | text (s : String)
  | absent
deriving DecidableEq, Repr

/-- `parseResponseBody` from src/src/core/utils.ts: empty text and read
failures degrade to `undefined`, text that `JSON.parse` (modelled by the
`jsonParse` parameter) rejects degrades to the raw string; the function never
throws. -/
def parseResponseBody {J : Type} (jsonParse : String → Option J) :
    BodyRead → ParsedBody J
  | .readFails => .absent
  | .text s =>
    if s = "" then .absent
    else
      match jsonParse s with
      | some v => .json v
      | none => .text s

/-- `splitNl cs` — the newline splitting performed by the source's
`while ((newlineIndex = bufferedText.indexOf('\n')) !== -1)` loop, as a total
function: the parts strictly before each `'\n'`, with the final element being
the remainder after the last newline (never empty as a list: a text without
newlines is the single part `[cs]`). -/
def splitNl : List Char → List (List Char)
  | [] => [[]]
  | c :: cs =>
    let r := splitNl cs
    if c = '\n' then [] :: r
    else
      match r with
      | [] => [[c]]
      | l :: ls => (c :: l) :: ls

/-- Per-line processing shared by the source's inner loop and its trailing
flush: trim, skip empty lines, `JSON.parse` each non-empty line and yield it;
a malformed line raises `ParseError` with stage `'json'` and terminates the
sequence, keeping the elements already yielded. -/
def parseLines {J : Type} (jp : List Char → Option J) :
    List (List Char) → List J × Option ParseStage
  | [] => ([], none)
  | l :: ls =>
    let t := trimChars l
    if t = [] then parseLines jp ls
    else
      match jp t with
      | none => ([], some .json)
      | some v =>
        let p := parseLines jp ls
        (v :: p.1, p.2)

/-- The chunk loop of `parseNdjsonStream` from src/src/core/utils.ts: append
the decoded chunk to the buffer, split off and process every complete line,
keep the remainder buffered; at stream end flush the trailing non-empty line. -/
def runChunks {J : Type} (jp : List Char → Option J) :
    List Char → List (List Char) → List J × Option ParseStage
  | buffer, [] =>
    let t := trimChars buffer
    if t = [] then ([], none)
    else
      match jp t with
      | none => ([], some .json)
      | some v => ([v], none)
  | buffer, chunk :: rest =>
    let parts := splitNl (buffer ++ chunk)
    let p := parseLines jp parts.dropLast
    if p.2.isSome then (p.1, p.2)
    else
      let q := runChunks jp (parts.getLast?.getD []) rest
      (p.1 ++ q.1, q.2)

/-- `parseNdjsonStream` from src/src/core/utils.ts for a whole stream: the
body is `none` when the response has no body (yield nothing), otherwise the
list of byte chunks the reader produces (text already decoded; `jp` models
`JSON.parse` on a line).  The result is the list of values yielded in order,
paired with `some ParseStage.json` when a malformed line raised `ParseError`
and terminated the generator. -/
def parseNdjsonStream {J : Type} (jp : List Char → Option J)
    (body : Option (List (List Char))) : List J × Option ParseStage :=
  match body with
  | none => ([], none)
  | some chunks => runChunks jp [] chunks

end Utils

namespace Client

/-- The local `parseResponseBody` of src/src/core/openapi-client.ts (used by
its error middleware before `createApiError`): same JSON-or-raw-text-or-absent
behaviour on readable bodies, but a failing `response.text()` read throws
`ParseError('Failed to parse error response', 'response')` instead of
returning `undefined`. -/
def parseResponseBody {J : Type} (jsonParse : String → Option J) :
    Utils.BodyRead → Except SdkThrown (Utils.ParsedBody J)
  | .readFails =>
    .error (.parseError ("Failed to parse error response") .response)
  | .text s =>
    if s = "" then .ok .absent
    else
      match jsonParse s with
      | some v => .ok (.json v)
      | none => .ok (.text s)

end Client

namespace Auth

/-- The token data `createAuthMiddleware` caches (src/src/core/auth.ts): the
`id_token` and the expiry, with the date string already converted to epoch
milliseconds (`new Date(expires_at).getTime()`); `none` models an absent
`expires_at`. -/
structure TokenData where
  id_token : Option String
  expires_at : Option Int
deriving DecidableEq, Repr

/-- The 5-minute refresh-ahead window of `shouldRefreshToken`. -/
def refreshThresholdMs : Int := 5 * 60 * 1000

/-- `shouldRefreshToken` from src/src/core/auth.ts: without an `expires_at`
never refresh; otherwise refresh when the time until expiry is within the
threshold. -/
def shouldRefreshToken (t : TokenData) (now : Int) : Bool :=
  match t.expires_at with
  | none => false
  | some expiry => expiry - now ≤ refreshThresholdMs

/-- The guard `!token || shouldRefreshToken(token)` of `ensureValidToken`. -/
def needsRefresh (token : Option TokenData) (now : Int) : Bool :=
  match token with
  | none => true
  | some t => shouldRefreshToken t now

deriving instance DecidableEq for Except

/-- Where one `ensureValidToken` caller stands.  An async function runs
synchronously up to its first `await`, so the whole entry prefix (the refresh
check and, for the leader, starting `getBearerToken` and storing
`refreshPromise`) is a single step; `awaitLeader`/`awaitFollower` are the two
`await refreshPromise` suspension points (the `if` branch and the `else`
branch), and `done` carries the value returned or the error propagated. -/
inductive TaskPhase
  | entry
  | awaitLeader (xid : Nat)
  | awaitFollower (xid : Nat)
  | done (r : Except String TokenData)
deriving DecidableEq, Repr

/-- The mutable state shared by all callers of one client instance: the two
captured variables `token` and `refreshPromise` of `createAuthMiddleware`,
plus the exchanges started so far (`none` while in flight, `some r` once
settled) and the interleaved caller tasks.  `refreshPromise` holds the index
of the exchange whose promise it is. -/
structure AuthState where
  token : Option TokenData
  refreshPromise : Option Nat
  exchanges : List (Option (Except String TokenData))
  tasks : List TaskPhase
deriving DecidableEq, Repr

/-- A fresh client instance: no token, no in-flight refresh. -/
def initState : AuthState := ⟨none, none, [], []⟩

/-- Labels naming the event-loop steps, so claims can quantify over specific
transitions. -/
inductive Label
  | spawn
  | finishFresh (i : Nat) (now : Int)
  | startExchange (i : Nat) (now : Int)
  | joinExchange (i : Nat) (now : Int) (xid : Nat)
  | settle (xid : Nat) (r : Except String TokenData)
  | resumeLeader (i : Nat) (xid : Nat) (r : Except String TokenData)
  | resumeFollower (i : Nat) (xid : Nat) (r : Except String TokenData)
deriving DecidableEq, Repr

/-- Small-step semantics of `ensureValidToken` under the single-threaded
event loop, directly from src/src/core/auth.ts:

* `spawn` — a new caller invokes `ensureValidToken`.
* `finishFresh` — entry prefix when a token is cached and
  `shouldRefreshToken` is false: return the cached token.
* `startExchange` — entry prefix when a refresh is needed and
  `refreshPromise === null`: call `getBearerToken` (a new in-flight exchange),
  store its promise in `refreshPromise`, suspend on `await refreshPromise`.
* `joinExchange` — entry prefix when a refresh is needed and a promise is
  already stored: suspend on the same stored promise.
* `settle` — the network exchange completes with result `r`.
* `resumeLeader` — the storing caller's `token = await refreshPromise`
  resumes after settlement: on success assign `token`, and in the `finally`
  clear `refreshPromise`; return the token or propagate the failure.
* `resumeFollower` — a joining caller's `token = await refreshPromise`
  resumes: on success assign `token`; return it or propagate the failure.

The scheduler (which task steps when, when arrivals happen, when the exchange
settles) is fully adversarial; steps only fire when their guards hold. -/
inductive Step : AuthState → Label → AuthState → Prop
  | spawn (s : AuthState) :
      Step s .spawn { s with tasks := s.tasks ++ [.entry] }
  | finishFresh (s : AuthState) (i : Nat) (now : Int) (t : TokenData)
      (hi : s.tasks.get? i = some .entry)
      (ht : s.token = some t)
      (hfresh : needsRefresh s.token now = false) :
      Step s (.finishFresh i now)
        { s with tasks := s.tasks.set i (.done (.ok t)) }
  | startExchange (s : AuthState) (i : Nat) (now : Int)
      (hi : s.tasks.get? i = some .entry)
      (hneed : needsRefresh s.token now = true)
      (hfree : s.refreshPromise = none) :
      Step s (.startExchange i now)
        { s with
            refreshPromise := some s.exchanges.length
            exchanges := s.exchanges ++ [none]
            tasks := s.tasks.set i (.awaitLeader s.exchanges.length) }
  | joinExchange (s : AuthState) (i : Nat) (now : Int) (xid : Nat)
      (hi : s.tasks.get? i = some .entry)
      (hneed : needsRefresh s.token now = true)
      (hheld : s.refreshPromise = some xid) :
      Step s (.joinExchange i now xid)
        { s with tasks := s.tasks.set i (.awaitFollower xid) }
  | settle (s : AuthState) (xid : Nat) (r : Except String TokenData)
      (hx : s.exchanges.get? xid = some none) :
      Step s (.settle xid r)
        { s with exchanges := s.exchanges.set xid (some r) }
  | resumeLeader (s : AuthState) (i xid : Nat) (r : Except String TokenData)
      (hi : s.tasks.get? i = some (.awaitLeader xid))
      (hx : s.exchanges.get? xid = some (some r)) :
      Step s (.resumeLeader i xid r)
        { s with
            token := match r with | .ok t => some t | .error _ => s.token
            refreshPromise := none
            tasks := s.tasks.set i (.done r) }
  | resumeFollower (s : AuthState) (i xid : Nat) (r : Except String TokenData)
      (hi : s.tasks.get? i = some (.awaitFollower xid))
      (hx : s.exchanges.get? xid = some (some r)) :
      Step s (.resumeFollower i xid r)
        { s with
            token := match r with | .ok t => some t | .error _ => s.token
            tasks := s.tasks.set i (.done r) }

/-- States reachable from a fresh client instance. -/
inductive Reachable : AuthState → Prop
  | init : Reachable initState
  | step {s : AuthState} {l : Label} {s' : AuthState} :
      Reachable s → Step s l s' → Reachable s'

/-- Exchange `xid` has been started but has not settled. -/
def InFlight (s : AuthState) (xid : Nat) : Prop :=
  s.exchanges.get? xid = some none

/-- The coalescing invariant of the token cache:
* every in-flight exchange is the one whose promise `refreshPromise` stores;
* a leader suspension always matches the stored promise, there is at most one
  leader, and a stored promise always has its leader still pending;
* the stored promise index is a real exchange. -/
structure Inv (s : AuthState) : Prop where
  flight_handle : ∀ xid, s.exchanges.get? xid = some none →
    s.refreshPromise = some xid
  leader_handle : ∀ i xid, s.tasks.get? i = some (.awaitLeader xid) →
    s.refreshPromise = some xid
  leader_unique : ∀ i j xi xj, s.tasks.get? i = some (.awaitLeader xi) →
    s.tasks.get? j = some (.awaitLeader xj) → i = j
  handle_leader : ∀ xid, s.refreshPromise = some xid →
    ∃ i, s.tasks.get? i = some (.awaitLeader xid)
  handle_valid : ∀ xid, s.refreshPromise = some xid →
    xid < s.exchanges.length

/-- `onError` of the middleware returned by `createAuthMiddleware`
(src/src/core/auth.ts): `token = null; throw error` — clear the cached token
unconditionally and rethrow the same error. -/
def onError (s : AuthState) (error : String) : AuthState × String :=
  ({ s with token := none }, error)

/-- `onResponse` of the middleware: clear the token exactly on status 401. -/
def onResponse (s : AuthState) (status : Nat) : AuthState :=
  if status = 401 then { s with token := none } else s

end Auth

namespace Retry

/-- Environment of the C4 scenario: a GET whose every attempt yields status
500, no abort signal, zero jitter draw. -/
def envC4 : CallEnv :=
  { attemptResult := fun _ => .ok ⟨500, none⟩
    rand := fun _ => 0
    parseDate := fun _ => none
    nowAt := fun _ => 0
    sigAtCheck := fun _ => false
    sigDuringSleep := fun _ => false }

/-- A 500 response with no `Retry-After` header. -/
def respC2 : Response := ⟨500, none⟩

/-- Environment where the abort signal is already triggered at every
pre-sleep check. -/
def envC2 : CallEnv :=
  { attemptResult := fun _ => .ok respC2
    rand := fun _ => 0
    parseDate := fun _ => none
    nowAt := fun _ => 0
    sigAtCheck := fun _ => true
    sigDuringSleep := fun _ => false }

/-- Environment where the abort signal fires during every retry sleep. -/
def envC2w : CallEnv :=
  { attemptResult := fun _ => .ok respC2
    rand := fun _ => 1
    parseDate := fun _ => none
    nowAt := fun _ => 0
    sigAtCheck := fun _ => false
    sigDuringSleep := fun _ => true }

/-- Environment of the C3 witness: POST answered 429 with `Retry-After: 1`. -/
def envC3 : CallEnv :=
  { attemptResult := fun _ => .ok ⟨429, some ("1")⟩
    rand := fun _ => 0
    parseDate := fun _ => none
    nowAt := fun _ => 0
    sigAtCheck := fun _ => false
    sigDuringSleep := fun _ => false }

end Retry

namespace Utils

/-- Prefix the first part of a split with `p` (the buffered text carried over
a chunk boundary). -/
def consHead (p : List Char) : List (List Char) → List (List Char)
  | [] => [p]
  | l :: ls => (p ++ l) :: ls

/-- Merge the newline splits of two concatenated texts: the last part of the
first text continues into the first part of the second. -/
def joinSplits : List (List Char) → List (List Char) → List (List Char)
  | [], r => r
  | [l], r => consHead l r
  | l :: ls, r => l :: joinSplits ls r

end Utils

namespace Auth

/-- A reachable state with one in-flight exchange: one caller arrived and
became the leader of exchange 0. -/
def authS1 : AuthState := ⟨none, some 0, [none], [.awaitLeader 0]⟩

/-- A state holding a still-valid cached token (expiry far in the future)
and one caller about to enter `ensureValidToken`. -/
def authSW : AuthState :=
  ⟨some ⟨some ("tok"), some 10000000⟩, none, [], [.entry]⟩

end Auth

namespace Retry

theorem iterAfterSend_sends (o : ResolvedRetryOptions) (method : String)
    (env : CallEnv) (irm : Bool) (maxA attempt : Nat) (error : Option JsError)
    (response : Option Response) (t : RunTrace)
    (h : iterAfterSend o method env irm maxA attempt error response = .finish t) :
    t.sends = 1 := by
  unfold iterAfterSend at h
  split at h
  · cases h; rfl
  · split at h
    · cases h; rfl
    · split at h
      · cases h; rfl
      · cases h

theorem runIteration_sends (o : ResolvedRetryOptions) (method : String)
    (env : CallEnv) (irm : Bool) (maxA attempt : Nat) (t : RunTrace)
    (h : runIteration o method env irm maxA attempt = .finish t) :
    t.sends = 1 := by
  unfold runIteration at h
  split at h
  · split at h
    · cases h; rfl
    · exact iterAfterSend_sends _ _ _ _ _ _ _ _ _ h
  · exact iterAfterSend_sends _ _ _ _ _ _ _ _ _ h

/-- The loop never runs more iterations than it has fuel, hence never more
underlying sends. -/
theorem retryLoop_sends_le (o : ResolvedRetryOptions) (method : String)
    (env : CallEnv) (irm : Bool) (maxA : Nat) :
    ∀ fuel attempt, (retryLoop o method env irm maxA attempt fuel).sends ≤ fuel := by
  intro fuel
  induction fuel with
  | zero => intro attempt; simp [retryLoop]
  | succ n ih =>
    intro attempt
    unfold retryLoop
    cases hIt : runIteration o method env irm maxA attempt with
    | finish t =>
      simp [runIteration_sends _ _ _ _ _ _ _ hIt]
    | next d =>
      simpa using Nat.succ_le_succ (ih (attempt + 1))

/-- When the attempt's outcome is not a 2xx response, the iteration reduces to
`iterAfterSend` on the error/response pair. -/
theorem runIteration_of_pair (o : ResolvedRetryOptions) (method : String)
    (env : CallEnv) (irm : Bool) (maxA attempt : Nat)
    (error : Option JsError) (response : Option Response)
    (hout : outcomePair (env.attemptResult attempt) = (error, response))
    (hnok : ∀ r, response = some r → r.ok = false) :
    runIteration o method env irm maxA attempt =
      iterAfterSend o method env irm maxA attempt error response := by
  unfold runIteration
  cases hres : env.attemptResult attempt with
  | ok r =>
    rw [hres] at hout
    simp only [outcomePair, Prod.mk.injEq] at hout
    obtain ⟨he, hr⟩ := hout
    subst he
    subst hr
    simp [hnok r rfl]
  | error e =>
    rw [hres] at hout
    simp only [outcomePair, Prod.mk.injEq] at hout
    obtain ⟨he, hr⟩ := hout
    subst he
    subst hr
    rfl

theorem retryLoop_succ (o : ResolvedRetryOptions) (method : String)
    (env : CallEnv) (irm : Bool) (maxA attempt fuel : Nat) :
    retryLoop o method env irm maxA attempt (fuel + 1) =
      (match runIteration o method env irm maxA attempt with
        | .finish t => t
        | .next d =>
          let t := retryLoop o method env irm maxA (attempt + 1) fuel
          ⟨t.result, t.sends + 1, t.sleeps + 1, d :: t.delays⟩) := by
  rfl

theorem clamp_bounds (v cap : ℚ) (h : 0 ≤ cap) :
    0 ≤ clamp v 0 cap ∧ clamp v 0 cap ≤ cap :=
  ⟨le_max_left 0 _, max_le h (min_le_left cap v)⟩

/-- C2 (amended): in the hand-rolled retry loop of src/src/core/retry.ts,
(1) if the abort signal fires while a positive between-attempt sleep is
pending, the whole call rejects with the abort error, that iteration's send is
the last one and no further attempt or sleep ever runs; (2) if the signal is
already triggered at the pre-sleep check of a non-final eligible attempt, the
loop short-circuits without consuming another attempt, but it surfaces the
last response (or rethrows the last transport failure) rather than a
cancellation error. -/
theorem c2_cancellation_amended (o : ResolvedRetryOptions) (method : String)
    (env : CallEnv) (irm : Bool) (maxA attempt fuel : Nat)
    (error : Option JsError) (response : Option Response)
    (hout : outcomePair (env.attemptResult attempt) = (error, response))
    (hnok : ∀ r, response = some r → r.ok = false)
    (hrem : attempt < maxA) :
    (∀ d, retryDecision o method env irm attempt error response = (true, some d) →
      0 < d → env.sigAtCheck attempt = false → env.sigDuringSleep attempt = true →
      retryLoop o method env irm maxA attempt (fuel + 1) =
        ⟨.thrown .abortError, 1, 0, []⟩)
    ∧ (env.sigAtCheck attempt = true →
      retryLoop o method env irm maxA attempt (fuel + 1) =
        ⟨lastOutcome error response, 1, 0, []⟩) := by
  constructor
  · intro d hdec hd hsig hfire
    rw [retryLoop_succ, runIteration_of_pair o method env irm maxA attempt error
      response hout hnok]
    unfold iterAfterSend
    rw [hdec]
    have hsleep : abortableSleep d false true = some .abortError := by
      unfold abortableSleep
      rw [if_neg (not_le.mpr hd)]
      rfl
    simp [hrem, hsig, hfire, hsleep]
  · intro hsig
    rw [retryLoop_succ, runIteration_of_pair o method env irm maxA attempt error
      response hout hnok]
    unfold iterAfterSend
    by_cases hc : (!(retryDecision o method env irm attempt error response).1
        || !(decide (attempt < maxA))) = true
    · rw [if_pos hc]
    · rw [if_neg hc, if_pos hsig]

/-- C2 (counterexample to the claim as stated): a GET answered 500 on attempt
1 of 3 with the signal already triggered at the pre-sleep check returns the
500 response after one send — it does not reject with a cancellation error as
the claim asserts. -/
theorem c2_cancellation_counterexample :
    retryingFetch {} ("GET") envC2 = ⟨.returned respC2, 1, 0, []⟩
    ∧ CallResult.returned respC2 ≠ CallResult.thrown JsError.abortError := by
  constructor
  · have hgp : ("GET" : String) ≠ "POST" := by decide
    unfold retryingFetch
    rw [show jsToUpper ("GET") = "GET" from by decide]
    norm_num [retryLoop, runIteration, iterAfterSend, retryDecision, envC2, respC2,
      parseRetryAfterMs, computeBackoffWithJitterMs, abortableSleep, lastOutcome,
      Response.ok, isTransportRejection, isAbortError, resolveRetryOptions,
      DEFAULT_RETRYABLE_STATUS, DEFAULT_RETRYABLE_METHODS, hgp]
  · simp

theorem c2_cancellation_witness :
    (1 : Nat) < 3
    ∧ retryDecision (resolveRetryOptions {}) ("GET") envC2w true 1 none (some respC2)
        = (true, some 250)
    ∧ retryLoop (resolveRetryOptions {}) ("GET") envC2w true 3 1 3 =
        ⟨.thrown .abortError, 1, 0, []⟩ := by
  have hgp : ("GET" : String) ≠ "POST" := by decide
  refine ⟨by decide, ?_, ?_⟩
  · norm_num [retryDecision, isTransportRejection, envC2w, respC2, parseRetryAfterMs,
      computeBackoffWithJitterMs, resolveRetryOptions, DEFAULT_RETRYABLE_STATUS,
      Response.ok, hgp]
  · exact (c2_cancellation_amended (resolveRetryOptions {}) ("GET") envC2w true 3 1 2
      none (some respC2) rfl (by intro r hr; cases hr; decide) (by decide)).1 250
      (by norm_num [retryDecision, isTransportRejection, envC2w, respC2,
        parseRetryAfterMs, computeBackoffWithJitterMs, resolveRetryOptions,
        DEFAULT_RETRYABLE_STATUS, Response.ok,
        (by decide : ("GET" : String) ≠ "POST")])
      (by norm_num) rfl rfl

/-- C3: a POST answered 429 is retried exactly when `parseRetryAfterMs`
accepts the `Retry-After` header (and attempts remain, under a quiescent
abort signal), with the parsed hint used as the sleep delay; when the hint is
absent or unparseable (or no attempts remain) the loop stops after this single
send and returns the 429 response, which the error classifier maps to the
rate-limit kind. -/
theorem c3_post429 :
    (∀ (o : ResolvedRetryOptions) (env : CallEnv) (irm : Bool)
      (maxA attempt fuel : Nat) (r : Response) (d : ℚ),
      env.attemptResult attempt = .ok r → r.status = 429 →
      parseRetryAfterMs env.parseDate (env.nowAt attempt) r.retryAfter o.maxDelayMs
        = some d →
      attempt < maxA → env.sigAtCheck attempt = false →
      env.sigDuringSleep attempt = false →
      retryLoop o ("POST") env irm maxA attempt (fuel + 1) =
        (let t := retryLoop o ("POST") env irm maxA (attempt + 1) fuel
         ⟨t.result, t.sends + 1, t.sleeps + 1, d :: t.delays⟩))
    ∧ (∀ (o : ResolvedRetryOptions) (env : CallEnv) (irm : Bool)
      (maxA attempt fuel : Nat) (r : Response),
      env.attemptResult attempt = .ok r → r.status = 429 →
      parseRetryAfterMs env.parseDate (env.nowAt attempt) r.retryAfter o.maxDelayMs
        = none →
      retryLoop o ("POST") env irm maxA attempt (fuel + 1) = ⟨.returned r, 1, 0, []⟩)
    ∧ (∀ (o : ResolvedRetryOptions) (env : CallEnv) (irm : Bool)
      (maxA attempt fuel : Nat) (r : Response),
      env.attemptResult attempt = .ok r → r.status = 429 → ¬ (attempt < maxA) →
      retryLoop o ("POST") env irm maxA attempt (fuel + 1) = ⟨.returned r, 1, 0, []⟩)
    ∧ (∀ (st : String) (b : Option Unit),
      (Errors.createApiError ⟨429, st⟩ b).kind = .rateLimitError) := by
  have hok : ∀ r : Response, r.status = 429 → r.ok = false := by
    intro r h; simp [Response.ok, h]
  refine ⟨?_, ?_, ?_, ?_⟩
  · intro o env irm maxA attempt fuel r d hres h429 hparse hrem hsig hfire
    rw [retryLoop_succ, runIteration_of_pair o ("POST") env irm maxA attempt none
      (some r) (by rw [hres]; rfl) (by intro r' hr'; cases hr'; exact hok r h429)]
    have hdec : retryDecision o ("POST") env irm attempt none (some r)
        = (true, some d) := by
      unfold retryDecision isTransportRejection
      simp [h429, hparse]
    unfold iterAfterSend
    rw [hdec]
    have hsleep : abortableSleep d false false = none := by
      unfold abortableSleep
      split
      · rfl
      · rfl
    simp [hrem, hsig, hfire, hsleep]
  · intro o env irm maxA attempt fuel r hres h429 hparse
    rw [retryLoop_succ, runIteration_of_pair o ("POST") env irm maxA attempt none
      (some r) (by rw [hres]; rfl) (by intro r' hr'; cases hr'; exact hok r h429)]
    have hdec : retryDecision o ("POST") env irm attempt none (some r)
        = (false, none) := by
      unfold retryDecision isTransportRejection
      simp [h429, hparse]
    unfold iterAfterSend
    rw [hdec]
    simp [lastOutcome]
  · intro o env irm maxA attempt fuel r hres h429 hnrem
    rw [retryLoop_succ, runIteration_of_pair o ("POST") env irm maxA attempt none
      (some r) (by rw [hres]; rfl) (by intro r' hr'; cases hr'; exact hok r h429)]
    unfold iterAfterSend
    simp [hnrem, lastOutcome]
  · intro st b
    simp [Errors.createApiError]

theorem c3_post429_witness :
    parseRetryAfterMs envC3.parseDate (envC3.nowAt 1) (some ("1"))
        (resolveRetryOptions {}).maxDelayMs = some 1000
    ∧ retryLoop (resolveRetryOptions {}) ("POST") envC3 false 3 1 3 =
        (let t := retryLoop (resolveRetryOptions {}) ("POST") envC3 false 3 2 2
         ⟨t.result, t.sends + 1, t.sleeps + 1, 1000 :: t.delays⟩) := by
  have hj : jsNumber ("1") = some 1 := by decide
  have hp : parseRetryAfterMs envC3.parseDate (envC3.nowAt 1) (some ("1"))
      (resolveRetryOptions {}).maxDelayMs = some 1000 := by
    show parseRetryAfterMs (fun _ => none) 0 (some ("1")) 30000 = some 1000
    simp only [parseRetryAfterMs]
    rw [if_neg (by decide : ¬("1" : String) = ""), hj]
    norm_num [clamp]
  exact ⟨hp, c3_post429.1 (resolveRetryOptions {}) envC3 false 3 1 2
    ⟨429, some ("1")⟩ 1000 rfl rfl hp (by decide) rfl rfl⟩

/-- C4: a GET whose every attempt yields status 500 under the default
maxAttempts of 3 runs the underlying send exactly 3 times with exactly 2
completed intervening sleeps and then returns the last 500 response (which the
error classifier maps to the server-error kind); and for every options,
method and environment, a call never runs more than max(1, maxAttempts)
underlying sends. -/
theorem c4_exhaustion :
    retryingFetch {} ("GET") envC4 = ⟨.returned ⟨500, none⟩, 3, 2, [0, 0]⟩
    ∧ (∀ (opts : RetryOptions) (method : String) (env : CallEnv),
        (retryingFetch opts method env).sends
          ≤ max 1 (resolveRetryOptions opts).maxAttempts)
    ∧ (∀ (st : String) (b : Option Unit),
        (Errors.createApiError ⟨500, st⟩ b).kind = .internalServerError) := by
  refine ⟨?_, ?_, ?_⟩
  · have hgp : ("GET" : String) ≠ "POST" := by decide
    unfold retryingFetch
    rw [show jsToUpper ("GET") = "GET" from by decide]
    norm_num [retryLoop, runIteration, iterAfterSend, retryDecision, envC4,
      parseRetryAfterMs, computeBackoffWithJitterMs, abortableSleep, lastOutcome,
      Response.ok, isTransportRejection, isAbortError, resolveRetryOptions,
      DEFAULT_RETRYABLE_STATUS, DEFAULT_RETRYABLE_METHODS, hgp]
  · intro opts method env
    exact retryLoop_sends_le (resolveRetryOptions opts) (jsToUpper method) env
      ((resolveRetryOptions opts).retryOnMethods.contains (jsToUpper method))
      (max 1 (resolveRetryOptions opts).maxAttempts)
      (max 1 (resolveRetryOptions opts).maxAttempts) 1
  · intro st b
    simp [Errors.createApiError]

/-- C5: `parseRetryAfterMs` maps a finite numeric header to the clamped
seconds-to-milliseconds conversion (for example `1.5` with a 30000ms cap gives
1500ms), falls back to date parsing (milliseconds from now, clamped) when the
text is not a finite number, returns `none` when the header is missing, empty
or parses neither way, and every returned value lies in `[0, capMs]`. -/
theorem c5_parseRetryAfter :
    (∀ (pd : String → Option ℚ) (now : ℚ),
      parseRetryAfterMs pd now (some ("1.5")) 30000 = some 1500)
    ∧ (∀ (pd : String → Option ℚ) (now cap : ℚ) (s : String) (q : ℚ),
      s ≠ "" → jsNumber s = some q →
      parseRetryAfterMs pd now (some s) cap = some (clamp (max 0 (q * 1000)) 0 cap))
    ∧ (∀ (pd : String → Option ℚ) (now cap : ℚ) (s : String) (t : ℚ),
      s ≠ "" → jsNumber s = none → pd s = some t →
      parseRetryAfterMs pd now (some s) cap = some (clamp (max 0 (t - now)) 0 cap))
    ∧ (∀ (pd : String → Option ℚ) (now cap : ℚ),
      parseRetryAfterMs pd now none cap = none)
    ∧ (∀ (pd : String → Option ℚ) (now cap : ℚ),
      parseRetryAfterMs pd now (some ("")) cap = none)
    ∧ (∀ (pd : String → Option ℚ) (now cap : ℚ) (s : String),
      jsNumber s = none → pd s = none → parseRetryAfterMs pd now (some s) cap = none)
    ∧ (∀ (pd : String → Option ℚ) (now cap : ℚ) (hv : Option String) (d : ℚ),
      0 ≤ cap → parseRetryAfterMs pd now hv cap = some d → 0 ≤ d ∧ d ≤ cap) := by
  have hnum : ∀ (pd : String → Option ℚ) (now cap : ℚ) (s : String) (q : ℚ),
      s ≠ "" → jsNumber s = some q →
      parseRetryAfterMs pd now (some s) cap
        = some (clamp (max 0 (q * 1000)) 0 cap) := by
    intro pd now cap s q hne hq
    simp only [parseRetryAfterMs]
    rw [if_neg hne, hq]
  refine ⟨?_, hnum, ?_, ?_, ?_, ?_, ?_⟩
  · intro pd now
    rw [hnum pd now 30000 ("1.5") (3 / 2) (by decide)
      (by
        unfold jsNumber
        rw [show trimChars (("1.5").data) = ['1', '.', '5'] from by decide]
        show parseUnsignedDec ['1', '.', '5'] = some (3 / 2)
        norm_num [parseUnsignedDec, splitDot, digitsToNat,
          (by decide : ¬ ('1' : Char) = '.'),
          (by decide : isDigitChar '1' = true),
          (by decide : isDigitChar '5' = true),
          (show '1'.toNat - '0'.toNat = 1 from by decide),
          (show '5'.toNat - '0'.toNat = 5 from by decide)])]
    norm_num [clamp]
  · intro pd now cap s t hne hjs hpd
    simp only [parseRetryAfterMs]
    rw [if_neg hne, hjs, hpd]
  · intro pd now cap
    rfl
  · intro pd now cap
    simp [parseRetryAfterMs]
  · intro pd now cap s hjs hpd
    by_cases hse : s = ""
    · simp [parseRetryAfterMs, hse]
    · simp only [parseRetryAfterMs]
      rw [if_neg hse, hjs, hpd]
  · intro pd now cap hv d hcap hres
    cases hv with
    | none => cases hres
    | some s =>
      simp only [parseRetryAfterMs] at hres
      by_cases hse : s = ""
      · rw [if_pos hse] at hres; cases hres
      · rw [if_neg hse] at hres
        cases hjs : jsNumber s with
        | some q =>
          rw [hjs] at hres
          simp only [Option.some.injEq] at hres
          rw [← hres]
          exact clamp_bounds _ _ hcap
        | none =>
          rw [hjs] at hres
          cases hpd : pd s with
          | some t =>
            rw [hpd] at hres
            simp only [Option.some.injEq] at hres
            rw [← hres]
            exact clamp_bounds _ _ hcap
          | none => rw [hpd] at hres; cases hres

theorem c5_parseRetryAfter_witness :
    ("2" : String) ≠ "" ∧ jsNumber ("2") = some 2
    ∧ parseRetryAfterMs (fun _ => none) 0 (some ("2")) 30000
        = some (clamp (max 0 (2 * 1000)) 0 30000) :=
  ⟨by decide, by decide,
    c5_parseRetryAfter.2.1 (fun _ => none) 0 30000 ("2") 2 (by decide) (by decide)⟩

end Retry

namespace Errors

/-- C6: `createApiError` realises the fixed status table — 400 BadRequest,
401 Authentication, 403 Authorization, 404 NotFound, 409 Conflict,
429 RateLimit, 500 InternalServer, 503 ServiceUnavailable — and every other
status outside this table (in particular every other non-2xx status) yields
the generic `ApiError` kind carrying that status as its `statusCode`. -/
theorem c6_createApiError_table :
    (∀ (β : Type) (b : Option β) (st : String),
      (createApiError ⟨400, st⟩ b).kind = .badRequestError)
    ∧ (∀ (β : Type) (b : Option β) (st : String),
      (createApiError ⟨401, st⟩ b).kind = .authenticationError)
    ∧ (∀ (β : Type) (b : Option β) (st : String),
      (createApiError ⟨403, st⟩ b).kind = .authorizationError)
    ∧ (∀ (β : Type) (b : Option β) (st : String),
      (createApiError ⟨404, st⟩ b).kind = .notFoundError)
    ∧ (∀ (β : Type) (b : Option β) (st : String),
      (createApiError ⟨409, st⟩ b).kind = .conflictError)
    ∧ (∀ (β : Type) (b : Option β) (st : String),
      (createApiError ⟨429, st⟩ b).kind = .rateLimitError)
    ∧ (∀ (β : Type) (b : Option β) (st : String),
      (createApiError ⟨500, st⟩ b).kind = .internalServerError)
    ∧ (∀ (β : Type) (b : Option β) (st : String),
      (createApiError ⟨503, st⟩ b).kind = .serviceUnavailableError)
    ∧ (∀ (β : Type) (b : Option β) (st : String) (s : Nat),
      ¬ (200 ≤ s ∧ s < 300) →
      s ∉ ([400, 401, 403, 404, 409, 429, 500, 503] : List Nat) →
      (createApiError ⟨s, st⟩ b).kind = .apiError
        ∧ (createApiError ⟨s, st⟩ b).statusCode = s) := by
  refine ⟨?_, ?_, ?_, ?_, ?_, ?_, ?_, ?_, ?_⟩
  · intro β b st; simp [createApiError]
  · intro β b st; simp [createApiError]
  · intro β b st; simp [createApiError]
  · intro β b st; simp [createApiError]
  · intro β b st; simp [createApiError]
  · intro β b st; simp [createApiError]
  · intro β b st; simp [createApiError]
  · intro β b st; simp [createApiError]
  · intro β b st s h2xx hmem
    have h : s ≠ 400 ∧ s ≠ 401 ∧ s ≠ 403 ∧ s ≠ 404 ∧ s ≠ 409 ∧ s ≠ 429
        ∧ s ≠ 500 ∧ s ≠ 503 := by simpa using hmem
    obtain ⟨h1, h2, h3, h4, h5, h6, h7, h8⟩ := h
    constructor
    · simp [createApiError, h1, h2, h3, h4, h5, h6, h7, h8]
    · simp [createApiError, h1, h2, h3, h4, h5, h6, h7, h8]

theorem c6_createApiError_table_witness :
    ¬ ((200 : Nat) ≤ 418 ∧ (418 : Nat) < 300)
    ∧ (418 : Nat) ∉ ([400, 401, 403, 404, 409, 429, 500, 503] : List Nat)
    ∧ ((createApiError ⟨418, ("teapot")⟩ (none : Option Unit)).kind = .apiError
        ∧ (createApiError ⟨418, ("teapot")⟩ (none : Option Unit)).statusCode = 418) :=
  ⟨by decide, by decide,
    c6_createApiError_table.2.2.2.2.2.2.2.2 Unit none ("teapot") 418
      (by decide) (by decide)⟩

end Errors
namespace Utils

theorem splitNl_ne_nil (cs : List Char) : splitNl cs ≠ [] := by
  induction cs with
  | nil => simp [splitNl]
  | cons c cs ih =>
    unfold splitNl
    by_cases h : c = '\n'
    · simp [h]
    · simp only [h, if_neg]
      cases hr : splitNl cs with
      | nil => simp
      | cons l ls => simp

theorem splitNl_cons_ne (c : Char) (cs : List Char) (h : ¬ c = '\n') :
    splitNl (c :: cs) = consHead [c] (splitNl cs) := by
  simp only [splitNl]
  rw [if_neg h]
  cases hr : splitNl cs with
  | nil => rfl
  | cons l ls => rfl

theorem joinSplits_cons (p x : List Char) (sa r : List (List Char)) :
    joinSplits (p :: x :: sa) r = p :: joinSplits (x :: sa) r := rfl

theorem consHead_joinSplits (p : List Char) (sa r : List (List Char))
    (h : sa ≠ []) :
    consHead p (joinSplits sa r) = joinSplits (consHead p sa) r := by
  cases sa with
  | nil => exact absurd rfl h
  | cons l ls =>
    cases ls with
    | nil =>
      cases r with
      | nil => rfl
      | cons x xs =>
        show (p ++ (l ++ x)) :: xs = ((p ++ l) ++ x) :: xs
        rw [List.append_assoc]
    | cons l2 ls2 => rfl

theorem splitNl_append (a b : List Char) :
    splitNl (a ++ b) = joinSplits (splitNl a) (splitNl b) := by
  induction a with
  | nil =>
    cases hb : splitNl b with
    | nil => exact absurd hb (splitNl_ne_nil b)
    | cons l ls =>
      rw [show ([] : List Char) ++ b = b from rfl, hb]
      simp [joinSplits, consHead, splitNl]
  | cons c a ih =>
    by_cases h : c = '\n'
    · subst h
      show splitNl ('\n' :: (a ++ b)) = joinSplits (splitNl ('\n' :: a)) (splitNl b)
      simp only [splitNl, if_true]
      rw [ih]
      cases ha : splitNl a with
      | nil => exact absurd ha (splitNl_ne_nil a)
      | cons l ls => rfl
    · rw [show (c :: a) ++ b = c :: (a ++ b) from rfl, splitNl_cons_ne c _ h,
        splitNl_cons_ne c a h, ih]
      exact consHead_joinSplits [c] (splitNl a) (splitNl b) (splitNl_ne_nil a)

theorem splitNl_no_nl (cs : List Char) :
    ∀ l ∈ splitNl cs, '\n' ∉ l := by
  induction cs with
  | nil =>
    intro l hl
    simp [splitNl] at hl
    simp [hl]
  | cons c cs ih =>
    by_cases h : c = '\n'
    · subst h
      intro l hl
      unfold splitNl at hl
      rw [if_pos rfl] at hl
      rcases List.mem_cons.mp hl with h1 | h2
      · simp [h1]
      · exact ih l h2
    · intro l hl
      rw [splitNl_cons_ne c cs h] at hl
      cases hr : splitNl cs with
      | nil => exact absurd hr (splitNl_ne_nil cs)
      | cons x xs =>
        rw [hr] at hl
        unfold consHead at hl
        rcases List.mem_cons.mp hl with h1 | h2
        · subst h1
          intro hmem
          rcases List.mem_append.mp hmem with h3 | h4
          · simp at h3
            exact h (h3.symm)
          · exact ih x (by rw [hr]; exact List.mem_cons_self x xs) h4
        · exact ih l (by rw [hr]; exact List.mem_cons.mpr (Or.inr h2))

theorem splitNl_single (cs : List Char) (h : '\n' ∉ cs) : splitNl cs = [cs] := by
  induction cs with
  | nil => rfl
  | cons c cs ih =>
    have hc : ¬ c = '\n' := by
      intro he
      exact h (by rw [he]; exact List.mem_cons_self _ _)
    rw [splitNl_cons_ne c cs hc, ih (fun hm => h (List.mem_cons.mpr (Or.inr hm)))]
    rfl

theorem parseLines_append {J : Type} (jp : List Char → Option J)
    (xs ys : List (List Char)) :
    parseLines jp (xs ++ ys) =
      (if (parseLines jp xs).2.isSome then parseLines jp xs
       else ((parseLines jp xs).1 ++ (parseLines jp ys).1, (parseLines jp ys).2)) := by
  induction xs with
  | nil => simp [parseLines]
  | cons l ls ih =>
    by_cases ht : trimChars l = []
    · have e1 : parseLines jp (l :: (ls ++ ys)) = parseLines jp (ls ++ ys) := by
        simp only [parseLines]
        rw [if_pos ht]
      have e2 : parseLines jp (l :: ls) = parseLines jp ls := by
        simp only [parseLines]
        rw [if_pos ht]
      rw [show (l :: ls) ++ ys = l :: (ls ++ ys) from rfl, e1, e2, ih]
    · cases hj : jp (trimChars l) with
      | none =>
        have e1 : parseLines jp (l :: (ls ++ ys)) = ([], some .json) := by
          simp only [parseLines]
          rw [if_neg ht, hj]
        have e2 : parseLines jp (l :: ls) = ([], some .json) := by
          simp only [parseLines]
          rw [if_neg ht, hj]
        rw [show (l :: ls) ++ ys = l :: (ls ++ ys) from rfl, e1, e2]
        simp
      | some v =>
        have e1 : parseLines jp (l :: (ls ++ ys))
            = (v :: (parseLines jp (ls ++ ys)).1, (parseLines jp (ls ++ ys)).2) := by
          simp only [parseLines]
          rw [if_neg ht, hj]
        have e2 : parseLines jp (l :: ls)
            = (v :: (parseLines jp ls).1, (parseLines jp ls).2) := by
          simp only [parseLines]
          rw [if_neg ht, hj]
        rw [show (l :: ls) ++ ys = l :: (ls ++ ys) from rfl, e1, e2, ih]
        by_cases he : (parseLines jp ls).2.isSome
        · simp [he]
        · simp [he]

end Utils

namespace Utils

theorem dropLast_concat_getLastD {α : Type} (l : List α) (d : α) (h : l ≠ []) :
    l.dropLast ++ [l.getLast?.getD d] = l := by
  rw [List.getLast?_eq_getLast l h]
  show l.dropLast ++ [l.getLast h] = l
  exact List.dropLast_append_getLast h

theorem getLastD_mem {α : Type} (l : List α) (d : α) (h : l ≠ []) :
    l.getLast?.getD d ∈ l := by
  rw [List.getLast?_eq_getLast l h]
  exact List.getLast_mem h

theorem joinSplits_concat (ls : List (List Char)) (x : List Char)
    (r : List (List Char)) :
    joinSplits (ls ++ [x]) r = ls ++ consHead x r := by
  induction ls with
  | nil => rfl
  | cons l ls2 ih =>
    cases ls2 with
    | nil => rfl
    | cons l2 ls3 =>
      show joinSplits (l :: ((l2 :: ls3) ++ [x])) r = _
      rw [show (l2 :: ls3) ++ [x] = l2 :: (ls3 ++ [x]) from rfl, joinSplits_cons,
        show l2 :: (ls3 ++ [x]) = (l2 :: ls3) ++ [x] from rfl, ih]
      rfl

theorem runChunks_eq {J : Type} (jp : List Char → Option J) :
    ∀ (chunks : List (List Char)) (buffer : List Char), '\n' ∉ buffer →
    runChunks jp buffer chunks = parseLines jp (splitNl (buffer ++ chunks.join)) := by
  intro chunks
  induction chunks with
  | nil =>
    intro buffer hb
    rw [show ([] : List (List Char)).join = [] from rfl, List.append_nil,
      splitNl_single buffer hb]
    simp only [runChunks, parseLines]
  | cons chunk rest ih =>
    intro buffer hb
    have hjoin : buffer ++ (chunk :: rest).join = (buffer ++ chunk) ++ rest.join := by
      rw [show (chunk :: rest).join = chunk ++ rest.join from rfl, List.append_assoc]
    rw [hjoin, splitNl_append]
    simp only [runChunks]
    have hne := splitNl_ne_nil (buffer ++ chunk)
    have hlast_nl : '\n' ∉ (splitNl (buffer ++ chunk)).getLast?.getD [] :=
      splitNl_no_nl (buffer ++ chunk) _ (getLastD_mem _ _ hne)
    have hih := ih ((splitNl (buffer ++ chunk)).getLast?.getD []) hlast_nl
    have hsb : splitNl ((splitNl (buffer ++ chunk)).getLast?.getD [] ++ rest.join)
        = consHead ((splitNl (buffer ++ chunk)).getLast?.getD [])
            (splitNl rest.join) := by
      rw [splitNl_append, splitNl_single _ hlast_nl]
      rfl
    rw [hsb] at hih
    have hdecomp := joinSplits_concat (splitNl (buffer ++ chunk)).dropLast
      ((splitNl (buffer ++ chunk)).getLast?.getD []) (splitNl rest.join)
    rw [dropLast_concat_getLastD _ [] hne] at hdecomp
    rw [hdecomp, parseLines_append, hih]

theorem parseLines_char {J : Type} (jp : List Char → Option J)
    (ls : List (List Char)) :
    parseLines jp ls =
      ((((ls.map trimChars).filter (fun l => !l.isEmpty)).takeWhile
          (fun l => (jp l).isSome)).filterMap jp,
        if ((ls.map trimChars).filter (fun l => !l.isEmpty)).all
            (fun l => (jp l).isSome) then none
        else some .json) := by
  induction ls with
  | nil => simp [parseLines]
  | cons l ls ih =>
    by_cases ht : trimChars l = []
    · have e : parseLines jp (l :: ls) = parseLines jp ls := by
        simp only [parseLines]
        rw [if_pos ht]
      rw [e, ih]
      simp [ht]
    · cases hj : jp (trimChars l) with
      | none =>
        have e : parseLines jp (l :: ls) = ([], some .json) := by
          simp only [parseLines]
          rw [if_neg ht, hj]
        rw [e]
        have hne : (trimChars l).isEmpty = false := by
          cases htl : trimChars l with
          | nil => exact absurd htl ht
          | cons a as => rfl
        simp [ht, hj, hne]
      | some v =>
        have e : parseLines jp (l :: ls)
            = (v :: (parseLines jp ls).1, (parseLines jp ls).2) := by
          simp only [parseLines]
          rw [if_neg ht, hj]
        have hne : (trimChars l).isEmpty = false := by
          cases htl : trimChars l with
          | nil => exact absurd htl ht
          | cons a as => rfl
        rw [e, ih]
        simp [ht, hj, hne]

end Utils

namespace Utils

/-- C7: the NDJSON stream decoder yields exactly one parsed JSON value per
non-empty trimmed line in byte order and skips empty lines, independent of
how the byte stream is chunked: an absent body yields zero elements; for any
chunking, the decoder's output equals the line-by-line processing of the
whole text split on newlines (whose final split part is the trailing line
without a terminating newline, parsed at end of stream); and that
line-by-line processing yields the parses of the longest prefix of non-empty
trimmed lines on which `JSON.parse` succeeds, terminating with a Parse error
of stage json exactly when some non-empty line is malformed, with the
already-yielded elements kept. -/
theorem c7_parseNdjsonStream :
    (∀ (J : Type) (jp : List Char → Option J),
      parseNdjsonStream jp none = ([], none))
    ∧ (∀ (J : Type) (jp : List Char → Option J) (chunks : List (List Char)),
      parseNdjsonStream jp (some chunks) = parseLines jp (splitNl chunks.join))
    ∧ (∀ (J : Type) (jp : List Char → Option J) (ls : List (List Char)),
      parseLines jp ls =
        ((((ls.map trimChars).filter (fun l => !l.isEmpty)).takeWhile
            (fun l => (jp l).isSome)).filterMap jp,
          if ((ls.map trimChars).filter (fun l => !l.isEmpty)).all
              (fun l => (jp l).isSome) then none
          else some .json)) := by
  refine ⟨fun _ _ => rfl, ?_, fun J jp ls => parseLines_char jp ls⟩
  intro J jp chunks
  show runChunks jp [] chunks = _
  have h := runChunks_eq jp chunks [] (by simp)
  simpa using h

/-- C8: `extractData` returns the payload exactly when the `data` field is
present and non-null, and throws `ParseError` with stage response when it is
absent or null — it never passes a null payload through. -/
theorem c8_extractData :
    (∀ (J : Type),
      extractData (none : Option J)
        = .error (.parseError
            ("Expected response data to be present for successful request")
            .response))
    ∧ (∀ (J : Type) (d : J), extractData (some d) = .ok d) :=
  ⟨fun _ => rfl, fun _ _ => rfl⟩

end Utils

namespace Client

/-- C9 (counterexample to the claim as stated): the error middleware of
src/src/core/openapi-client.ts parses error-response bodies with its local
`parseResponseBody`, and when reading the body (`response.text()`) fails that
parser throws a Parse error with stage response instead of returning absent —
so body parsing during classification can raise, aborting classification of
the original HTTP error. -/
theorem c9_bodyParse_counterexample :
    parseResponseBody (fun _ => (none : Option Unit)) Utils.BodyRead.readFails
      = .error (.parseError ("Failed to parse error response") .response) := rfl

/-- C9 (amended): the shared `parseResponseBody` of src/src/core/utils.ts is
total — decoded JSON when the text parses, the raw text when it does not,
absent when the text is empty or reading fails — and never throws; the error
middleware's local `parseResponseBody` in src/src/core/openapi-client.ts
behaves the same on readable bodies but throws a Parse error with stage
response when reading the body fails. -/
theorem c9_bodyParse_amended :
    (∀ (J : Type) (jp : String → Option J),
      Utils.parseResponseBody jp .readFails = Utils.ParsedBody.absent)
    ∧ (∀ (J : Type) (jp : String → Option J),
      Utils.parseResponseBody jp (.text ("")) = Utils.ParsedBody.absent)
    ∧ (∀ (J : Type) (jp : String → Option J) (s : String) (v : J),
      s ≠ "" → jp s = some v → Utils.parseResponseBody jp (.text s) = .json v)
    ∧ (∀ (J : Type) (jp : String → Option J) (s : String),
      s ≠ "" → jp s = none → Utils.parseResponseBody jp (.text s) = .text s)
    ∧ (∀ (J : Type) (jp : String → Option J),
      parseResponseBody jp (.text ("")) = .ok Utils.ParsedBody.absent)
    ∧ (∀ (J : Type) (jp : String → Option J) (s : String) (v : J),
      s ≠ "" → jp s = some v → parseResponseBody jp (.text s) = .ok (.json v))
    ∧ (∀ (J : Type) (jp : String → Option J) (s : String),
      s ≠ "" → jp s = none → parseResponseBody jp (.text s) = .ok (.text s))
    ∧ (∀ (J : Type) (jp : String → Option J),
      parseResponseBody jp .readFails
        = .error (.parseError ("Failed to parse error response") .response)) := by
  refine ⟨fun _ _ => rfl, fun _ _ => rfl, ?_, ?_, fun _ _ => rfl, ?_, ?_,
    fun _ _ => rfl⟩
  · intro J jp s v hne hjp
    simp [Utils.parseResponseBody, hne, hjp]
  · intro J jp s hne hjp
    simp [Utils.parseResponseBody, hne, hjp]
  · intro J jp s v hne hjp
    simp [parseResponseBody, hne, hjp]
  · intro J jp s hne hjp
    simp [parseResponseBody, hne, hjp]

theorem c9_bodyParse_witness :
    ("x" : String) ≠ ""
    ∧ Utils.parseResponseBody (fun _ : String => some (7 : Nat)) (.text ("x"))
        = .json 7 :=
  ⟨by decide,
    c9_bodyParse_amended.2.2.1 Nat (fun _ => some 7) ("x") 7 (by decide) rfl⟩

end Client
namespace Auth

theorem get?_some_lt {α : Type} {l : List α} {i : Nat} {x : α}
    (h : l.get? i = some x) : i < l.length := by
  obtain ⟨hlt, -⟩ := List.get?_eq_some.mp h
  exact hlt

theorem inv_init : Inv initState := by
  constructor
  · intro xid h
    simp [initState] at h
  · intro i xid h
    simp [initState] at h
  · intro i j xi xj hi hj
    simp [initState] at hi
  · intro xid h
    simp [initState] at h
  · intro xid h
    simp [initState] at h

theorem inv_step {s : AuthState} {l : Label} {s' : AuthState}
    (hinv : Inv s) (hstep : Step s l s') : Inv s' := by
  obtain ⟨flight_handle, leader_handle, leader_unique, handle_leader, handle_valid⟩ := hinv
  cases hstep with
  | spawn =>
    refine ⟨?_, ?_, ?_, ?_, ?_⟩
    · intro xid h
      exact flight_handle xid h
    · intro i xid h
      by_cases hi : i < s.tasks.length
      · rw [List.get?_append hi] at h
        exact leader_handle i xid h
      · rw [List.get?_append_right (Nat.le_of_not_lt hi)] at h
        have hl := get?_some_lt h
        simp at hl
        have h0 : i - s.tasks.length = 0 := by omega
        rw [h0] at h
        simp at h
    · intro i j xi xj hi hj
      by_cases hi' : i < s.tasks.length
      · rw [List.get?_append hi'] at hi
        by_cases hj' : j < s.tasks.length
        · rw [List.get?_append hj'] at hj
          exact leader_unique i j xi xj hi hj
        · rw [List.get?_append_right (Nat.le_of_not_lt hj')] at hj
          have hl := get?_some_lt hj
          simp at hl
          have h0 : j - s.tasks.length = 0 := by omega
          rw [h0] at hj
          simp at hj
      · rw [List.get?_append_right (Nat.le_of_not_lt hi')] at hi
        have hl := get?_some_lt hi
        simp at hl
        have h0 : i - s.tasks.length = 0 := by omega
        rw [h0] at hi
        simp at hi
    · intro xid h
      obtain ⟨i, hi⟩ := handle_leader xid h
      exact ⟨i, by rw [List.get?_append (get?_some_lt hi)]; exact hi⟩
    · intro xid h
      exact handle_valid xid h
  | finishFresh i now t hi ht hfresh =>
    refine ⟨flight_handle, ?_, ?_, ?_, handle_valid⟩
    · intro j xid h
      by_cases hj : j = i
      · subst hj
        rw [List.get?_set_eq_of_lt _ (get?_some_lt hi)] at h
        cases h
      · rw [List.get?_set_ne _ _ (fun he => hj he.symm)] at h
        exact leader_handle j xid h
    · intro j k xj xk hj hk
      by_cases hj' : j = i
      · subst hj'
        rw [List.get?_set_eq_of_lt _ (get?_some_lt hi)] at hj
        cases hj
      · by_cases hk' : k = i
        · subst hk'
          rw [List.get?_set_eq_of_lt _ (get?_some_lt hi)] at hk
          cases hk
        · rw [List.get?_set_ne _ _ (fun he => hj' he.symm)] at hj
          rw [List.get?_set_ne _ _ (fun he => hk' he.symm)] at hk
          exact leader_unique j k xj xk hj hk
    · intro xid h
      obtain ⟨j, hj⟩ := handle_leader xid h
      have hji : j ≠ i := by
        intro he
        subst he
        rw [hi] at hj
        cases hj
      exact ⟨j, by rw [List.get?_set_ne _ _ (fun he => hji he.symm)]; exact hj⟩
  | startExchange i now hi hneed hfree =>
    have hnoflight : ∀ xid, s.exchanges.get? xid = some none → False := by
      intro xid hx
      rw [flight_handle xid hx] at hfree
      cases hfree
    have hnoleader : ∀ j xj, s.tasks.get? j = some (.awaitLeader xj) → False := by
      intro j xj hj
      rw [leader_handle j xj hj] at hfree
      cases hfree
    refine ⟨?_, ?_, ?_, ?_, ?_⟩
    · intro xid h
      simp only []
      by_cases hx : xid < s.exchanges.length
      · rw [List.get?_append hx] at h
        exact (hnoflight xid h).elim
      · rw [List.get?_append_right (Nat.le_of_not_lt hx)] at h
        have hl := get?_some_lt h
        simp at hl
        have : xid = s.exchanges.length := by omega
        subst this
        rfl
    · intro j xid h
      by_cases hj : j = i
      · subst hj
        rw [List.get?_set_eq_of_lt _ (get?_some_lt hi)] at h
        cases h
        rfl
      · rw [List.get?_set_ne _ _ (fun he => hj he.symm)] at h
        exact (hnoleader j xid h).elim
    · intro j k xj xk hj hk
      by_cases hj' : j = i
      · by_cases hk' : k = i
        · rw [hj', hk']
        · subst hj'
          rw [List.get?_set_ne _ _ (fun he => hk' he.symm)] at hk
          exact (hnoleader k xk hk).elim
      · rw [List.get?_set_ne _ _ (fun he => hj' he.symm)] at hj
        exact (hnoleader j xj hj).elim
    · intro xid h
      simp only [] at h
      cases h
      exact ⟨i, by rw [List.get?_set_eq_of_lt _ (get?_some_lt hi)]⟩
    · intro xid h
      simp only [] at h
      cases h
      simp
  | joinExchange i now xid hi hneed hheld =>
    refine ⟨flight_handle, ?_, ?_, ?_, handle_valid⟩
    · intro j xj h
      by_cases hj : j = i
      · subst hj
        rw [List.get?_set_eq_of_lt _ (get?_some_lt hi)] at h
        cases h
      · rw [List.get?_set_ne _ _ (fun he => hj he.symm)] at h
        exact leader_handle j xj h
    · intro j k xj xk hj hk
      by_cases hj' : j = i
      · subst hj'
        rw [List.get?_set_eq_of_lt _ (get?_some_lt hi)] at hj
        cases hj
      · by_cases hk' : k = i
        · subst hk'
          rw [List.get?_set_eq_of_lt _ (get?_some_lt hi)] at hk
          cases hk
        · rw [List.get?_set_ne _ _ (fun he => hj' he.symm)] at hj
          rw [List.get?_set_ne _ _ (fun he => hk' he.symm)] at hk
          exact leader_unique j k xj xk hj hk
    · intro xj h
      obtain ⟨j, hj⟩ := handle_leader xj h
      have hji : j ≠ i := by
        intro he
        subst he
        rw [hi] at hj
        cases hj
      exact ⟨j, by rw [List.get?_set_ne _ _ (fun he => hji he.symm)]; exact hj⟩
  | settle xid r hx =>
    refine ⟨?_, leader_handle, leader_unique, handle_leader, ?_⟩
    · intro yid h
      by_cases hy : yid = xid
      · subst hy
        rw [List.get?_set_eq_of_lt _ (get?_some_lt hx)] at h
        cases h
      · rw [List.get?_set_ne _ _ (fun he => hy he.symm)] at h
        exact flight_handle yid h
    · intro yid h
      have := handle_valid yid h
      simpa using this
  | resumeLeader i xid r hi hx =>
    have hnone : ∀ yid, s.exchanges.get? yid = some none → False := by
      intro yid hy
      have h1 := flight_handle yid hy
      have h2 := leader_handle i xid hi
      rw [h1] at h2
      cases h2
      rw [hy] at hx
      cases hx
    refine ⟨?_, ?_, ?_, ?_, ?_⟩
    · intro yid h
      exact (hnone yid h).elim
    · intro j xj h
      by_cases hj : j = i
      · subst hj
        rw [List.get?_set_eq_of_lt _ (get?_some_lt hi)] at h
        cases h
      · rw [List.get?_set_ne _ _ (fun he => hj he.symm)] at h
        have := leader_unique j i xj xid h hi
        exact absurd this hj
    · intro j k xj xk hj hk
      by_cases hj' : j = i
      · subst hj'
        rw [List.get?_set_eq_of_lt _ (get?_some_lt hi)] at hj
        cases hj
      · rw [List.get?_set_ne _ _ (fun he => hj' he.symm)] at hj
        have := leader_unique j i xj xid hj hi
        exact absurd this hj'
    · intro yid h
      cases h
    · intro yid h
      cases h
  | resumeFollower i xid r hi hx =>
    refine ⟨flight_handle, ?_, ?_, ?_, handle_valid⟩
    · intro j xj h
      by_cases hj : j = i
      · subst hj
        rw [List.get?_set_eq_of_lt _ (get?_some_lt hi)] at h
        cases h
      · rw [List.get?_set_ne _ _ (fun he => hj he.symm)] at h
        exact leader_handle j xj h
    · intro j k xj xk hj hk
      by_cases hj' : j = i
      · subst hj'
        rw [List.get?_set_eq_of_lt _ (get?_some_lt hi)] at hj
        cases hj
      · by_cases hk' : k = i
        · subst hk'
          rw [List.get?_set_eq_of_lt _ (get?_some_lt hi)] at hk
          cases hk
        · rw [List.get?_set_ne _ _ (fun he => hj' he.symm)] at hj
          rw [List.get?_set_ne _ _ (fun he => hk' he.symm)] at hk
          exact leader_unique j k xj xk hj hk
    · intro xj h
      obtain ⟨j, hj⟩ := handle_leader xj h
      have hji : j ≠ i := by
        intro he
        subst he
        rw [hi] at hj
        cases hj
      exact ⟨j, by rw [List.get?_set_ne _ _ (fun he => hji he.symm)]; exact hj⟩

theorem reachable_inv {s : AuthState} (h : Reachable s) : Inv s := by
  induction h with
  | init => exact inv_init
  | step _ hstep ih => exact inv_step ih hstep

end Auth

namespace Auth

/-- C1: in every state reachable under any interleaving of concurrent
`ensureValidToken` callers, at most one credential exchange is in flight;
`startExchange` fires exactly when a refresh is needed and no refresh promise
is stored, starts exactly one new in-flight exchange and stores its handle;
every caller entering while a handle is stored awaits that same handle;
every awaiter (leader or follower) that resumes receives exactly the stored
result of that single exchange, the settled result never changes, and the
leader's resumption clears the stored handle whether the exchange succeeded
or failed. -/
theorem c1_refresh_coalescing (s : AuthState) (h : Reachable s) :
    (∀ x y, InFlight s x → InFlight s y → x = y)
    ∧ (∀ (s' : AuthState) (i : Nat) (now : Int),
        Step s (.startExchange i now) s' →
        s.refreshPromise = none ∧ needsRefresh s.token now = true
          ∧ s'.exchanges = s.exchanges ++ [none]
          ∧ s'.refreshPromise = some s.exchanges.length
          ∧ InFlight s' s.exchanges.length)
    ∧ (∀ (s' : AuthState) (i : Nat) (now : Int) (xid : Nat),
        Step s (.joinExchange i now xid) s' →
        s.refreshPromise = some xid
          ∧ s'.tasks.get? i = some (.awaitFollower xid)
          ∧ s'.exchanges = s.exchanges)
    ∧ (∀ (s' : AuthState) (i xid : Nat) (r : Except String TokenData),
        Step s (.resumeFollower i xid r) s' →
        s.exchanges.get? xid = some (some r)
          ∧ s'.tasks.get? i = some (.done r))
    ∧ (∀ (s' : AuthState) (i xid : Nat) (r : Except String TokenData),
        Step s (.resumeLeader i xid r) s' →
        s.exchanges.get? xid = some (some r)
          ∧ s'.tasks.get? i = some (.done r)
          ∧ s'.refreshPromise = none)
    ∧ (∀ (s' : AuthState) (l : Label) (xid : Nat) (r : Except String TokenData),
        Step s l s' → s.exchanges.get? xid = some (some r) →
        s'.exchanges.get? xid = some (some r)) := by
  have hinv := reachable_inv h
  refine ⟨?_, ?_, ?_, ?_, ?_, ?_⟩
  · intro x y hx hy
    have h1 := hinv.flight_handle x hx
    have h2 := hinv.flight_handle y hy
    rw [h1] at h2
    exact (Option.some.injEq _ _ ▸ h2)
  · intro s' i now hstep
    cases hstep with
    | startExchange i now hi hneed hfree =>
      refine ⟨hfree, hneed, rfl, rfl, ?_⟩
      unfold InFlight
      show (s.exchanges ++ [none]).get? s.exchanges.length = some none
      rw [List.get?_append_right (Nat.le_refl _)]
      simp
  · intro s' i now xid hstep
    cases hstep with
    | joinExchange i now xid hi hneed hheld =>
      refine ⟨hheld, ?_, rfl⟩
      rw [List.get?_set_eq_of_lt _ (get?_some_lt hi)]
  · intro s' i xid r hstep
    cases hstep with
    | resumeFollower i xid r hi hx =>
      refine ⟨hx, ?_⟩
      rw [List.get?_set_eq_of_lt _ (get?_some_lt hi)]
  · intro s' i xid r hstep
    cases hstep with
    | resumeLeader i xid r hi hx =>
      refine ⟨hx, ?_, rfl⟩
      rw [List.get?_set_eq_of_lt _ (get?_some_lt hi)]
  · intro s' l xid r hstep hx
    cases hstep with
    | spawn => exact hx
    | finishFresh i now t hi ht hfresh => exact hx
    | startExchange i now hi hneed hfree =>
      show (s.exchanges ++ [none]).get? xid = some (some r)
      rw [List.get?_append (get?_some_lt hx)]
      exact hx
    | joinExchange i now xid' hi hneed hheld => exact hx
    | settle yid r' hy =>
      have hne : xid ≠ yid := by
        intro he
        subst he
        rw [hx] at hy
        cases hy
      show (s.exchanges.set yid (some r')).get? xid = some (some r)
      rw [List.get?_set_ne _ _ (fun he => hne he.symm)]
      exact hx
    | resumeLeader i yid r' hi hy => exact hx
    | resumeFollower i yid r' hi hy => exact hx

theorem c1_refresh_coalescing_witness :
    Reachable authS1 ∧ (∀ x y, InFlight authS1 x → InFlight authS1 y → x = y) := by
  have hreach : Reachable authS1 := by
    have h0 : Reachable
        { token := none, refreshPromise := none, exchanges := [],
          tasks := [.entry] } :=
      Reachable.step Reachable.init (Step.spawn initState)
    exact Reachable.step h0 (Step.startExchange _ 0 0 rfl rfl rfl)
  exact ⟨hreach, (c1_refresh_coalescing authS1 hreach).1⟩

/-- C10: the middleware's `onError` hook clears the cached token on every
error and rethrows it unchanged, so whatever token was cached — even one that
was still valid — the next `ensureValidToken` entry must refresh: with no
refresh in flight its only enabled entry step is `startExchange` (a fresh
credential exchange), and neither `finishFresh` nor `joinExchange` can fire. -/
theorem c10_onError_clears (s : AuthState) (error : String) :
    ((onError s error).1.token = none)
    ∧ ((onError s error).2 = error)
    ∧ (∀ now : Int, needsRefresh (onError s error).1.token now = true)
    ∧ (∀ (i : Nat) (now : Int), s.refreshPromise = none →
        (onError s error).1.tasks.get? i = some .entry →
        (∃ s', Step (onError s error).1 (.startExchange i now) s')
          ∧ (∀ s', ¬ Step (onError s error).1 (.finishFresh i now) s')
          ∧ (∀ s' xid, ¬ Step (onError s error).1 (.joinExchange i now xid) s')) := by
  refine ⟨rfl, rfl, fun now => rfl, ?_⟩
  intro i now hfree hi
  refine ⟨⟨_, Step.startExchange _ i now hi rfl hfree⟩, ?_, ?_⟩
  · intro s' hstep
    cases hstep with
    | finishFresh i now t hi' ht hfresh => cases ht
  · intro s' xid hstep
    cases hstep with
    | joinExchange i now xid hi' hneed hheld =>
      have h2 : s.refreshPromise = some xid := hheld
      rw [hfree] at h2
      cases h2

theorem c10_onError_clears_witness :
    needsRefresh authSW.token 0 = false
    ∧ (onError authSW ("boom")).1.token = none
    ∧ (∀ now : Int, needsRefresh (onError authSW ("boom")).1.token now = true)
    ∧ (∃ s', Step (onError authSW ("boom")).1 (.startExchange 0 0) s') := by
  refine ⟨by decide, (c10_onError_clears authSW ("boom")).1, (c10_onError_clears authSW ("boom")).2.2.1, ?_⟩
  exact ((c10_onError_clears authSW ("boom")).2.2.2 0 0 rfl rfl).1

end Auth
